import Mathlib

/-!
# Watchtower: filters, prerequisite check, startup configuration, single-flight gate

A shallow embedding of `container/filters.go`, `actions/check.go` and the
`before` / `start` functions of `main.go`, with the properties proved about them.
-/

namespace Watchtower

/-! ## container/filters.go -/

/-- A FilterableContainer is the interface used to filter containers: the three
getters `Name()`, `IsWatchtower()` and `WatchtowerTag()`, the last one returning the
pair `(string, bool)`. -/
structure FilterableContainer where
  Name : String
  IsWatchtower : Bool
  WatchtowerTag : String × Bool
deriving DecidableEq, Repr

/-- A Filter is a function that can be used to filter the results of `ListContainers`. -/
abbrev Filter := FilterableContainer → Bool

/-- `BuildWatchtowerContainersFilter(tag)`:
`hasTag && containerTag == tag && c.IsWatchtower()`. -/
def BuildWatchtowerContainersFilter (tag : String) : Filter := fun c =>
  let containerTag := c.WatchtowerTag.1
  let hasTag := c.WatchtowerTag.2
  hasTag && containerTag == tag && c.IsWatchtower

/-- `BuildTagFilter(tag)`: `hasTag && containerTag == tag`. -/
def BuildTagFilter (tag : String) : Filter := fun c =>
  let containerTag := c.WatchtowerTag.1
  let hasTag := c.WatchtowerTag.2
  hasTag && containerTag == tag

/-! ## The container type and its ordering -/

/-- Modelled from the spec: the `Container` type of the `container` package (its
declaration is not among the sources). It is a `FilterableContainer` that also
carries the creation time used "only for relative ordering". -/
structure Container extends FilterableContainer where
  Created : Nat
deriving DecidableEq, Repr

/-- Modelled from the spec: `ByCreated.Less`, the comparator of the ordering rule,
"true iff `a.createdAt < b.createdAt`" (its declaration is not among the sources). -/
def ByCreated.Less (a b : Container) : Bool := decide (a.Created < b.Created)

/-- Two containers cannot each be created strictly before the other. -/
instance : IsAntisymm Container (fun a b => a.Created < b.Created) :=
  ⟨fun _ _ h₁ h₂ => absurd h₁ (Nat.lt_asymm h₂)⟩

/-! ## sort.Sort -/

/-- The documented contract of the library routine `sort.Sort` at the slice `cs`, for
the `ByCreated` ordering: the result holds the same elements and is in ascending order
as determined by `Less` (no later element is `Less` than an earlier one). The library
documents that the sort "is not guaranteed to be stable", so nothing is said about
elements with equal creation times. -/
def SortsByCreated (sortSort : List Container → List Container) (cs : List Container) : Prop :=
  (sortSort cs).Perm cs ∧ (sortSort cs).Pairwise (fun a b => ByCreated.Less b a = false)

instance (sortSort : List Container → List Container) (cs : List Container) :
    Decidable (SortsByCreated sortSort cs) := by
  unfold SortsByCreated; infer_instance

/-- `data.Less(i, j)` of `ByCreated`, on the slice held as a list. -/
def lessAt (data : List Container) (i j : Nat) : Bool :=
  match data[i]?, data[j]? with
  | some x, some y => ByCreated.Less x y
  | _, _ => false

/-- `data.Swap(i, j)` of `ByCreated`: `c[i], c[j] = c[j], c[i]`. -/
def swapAt (data : List Container) (i j : Nat) : List Container :=
  match data[i]?, data[j]? with
  | some x, some y => (data.set i y).set j x
  | _, _ => data

/-- The inner loop of the library `insertionSort`:
`for j := i; j > a && data.Less(j, j-1); j-- { data.Swap(j, j-1) }`. -/
def insertionSortInner (a : Nat) : Nat → List Container → List Container
  | 0, data => data
  | j + 1, data =>
    if j + 1 > a && lessAt data (j + 1) j then
      insertionSortInner a j (swapAt data (j + 1) j)
    else data

/-- The library `insertionSort(data, a, b)`: `for i := a + 1; i < b; i++ { ... }`. -/
def insertionSort (data : List Container) (a b : Nat) : List Container :=
  (List.range' (a + 1) (b - (a + 1))).foldl (fun d i => insertionSortInner a i d) data

/-- The ShellSort pass with gap 6 that `quickSort` runs before `insertionSort`:
`for i := a + 6; i < b; i++ { if data.Less(i, i-6) { data.Swap(i, i-6) } }`. -/
def shellPass (data : List Container) (a b : Nat) : List Container :=
  (List.range' (a + 6) (b - (a + 6))).foldl
    (fun d i => if lessAt d i (i - 6) then swapAt d i (i - 6) else d) data

/-- What `sort.Sort(container.ByCreated(data))` does in the library releases Go 1.6 to
1.18 when the slice has at most 12 elements: `quickSort(data, 0, n, maxDepth(n))` skips
its partitioning loop (`for b-a > 12`) and, if `b-a > 1`, runs the gap-6 ShellSort pass
followed by `insertionSort`. (On longer slices this procedure still sorts, but it is
not what the library runs there.) -/
def shortSort (data : List Container) : List Container :=
  let a := 0
  let b := data.length
  if b - a > 1 then insertionSort (shellPass data a b) a b else data

/-! ## The container client -/

/-- The calls of the `container.Client` interface that `CheckPrereqs` uses. Each takes
and returns the state `σ` of the world behind the client; a Go `error` is an
`Option String` (`none` for `nil`). -/
structure Client (σ : Type) where
  ListContainers : Filter → σ → Except String (List Container) × σ
  StopContainer : Container → Nat → σ → Option String × σ
  RemoveImage : Container → σ → Option String × σ

/-- A call made on the client, as a mock would record it. -/
inductive Call where
  | ListContainers
  | StopContainer (c : Container) (timeout : Nat)
  | RemoveImage (c : Container)
deriving DecidableEq, Repr

/-- The client `client` with every call appended to a record of the calls made. -/
def Client.recording {σ : Type} (client : Client σ) : Client (σ × List Call) where
  ListContainers fn s :=
    ((client.ListContainers fn s.1).1, ((client.ListContainers fn s.1).2, s.2 ++ [Call.ListContainers]))
  StopContainer c t s :=
    ((client.StopContainer c t s.1).1, ((client.StopContainer c t s.1).2, s.2 ++ [Call.StopContainer c t]))
  RemoveImage c s :=
    ((client.RemoveImage c s.1).1, ((client.RemoveImage c s.1).2, s.2 ++ [Call.RemoveImage c]))

/-! ## actions/check.go -/

/-- The body of the loop of `CheckPrereqs` for one container `c`:
`client.StopContainer(c, 60)`, then `client.RemoveImage(c)` if `cleanup`. Both
results are discarded. -/
def CheckPrereqs.body {σ : Type} (client : Client σ) (cleanup : Bool) (s : σ) (c : Container) : σ :=
  let s1 := (client.StopContainer c 60 s).2
  if cleanup then (client.RemoveImage c s1).2 else s1

/-- `CheckPrereqs(client, tag, cleanup)`. The library routine `sort.Sort` is the
parameter `sortSort`; the result is the returned error and the state of the world. -/
def CheckPrereqs {σ : Type} (sortSort : List Container → List Container)
    (client : Client σ) (tag : String) (cleanup : Bool) (s : σ) : Option String × σ :=
  match client.ListContainers (BuildWatchtowerContainersFilter tag) s with
  | (.error err, s1) => (some err, s1)
  | (.ok containers, s1) =>
    if containers.length > 1 then
      let sorted := sortSort containers
      -- Iterate over all containers except the last one
      (none, (sorted.take (containers.length - 1)).foldl (CheckPrereqs.body client cleanup) s1)
    else
      (none, s1)

/-- The calls that stop and clean up the containers `cs`, in order. -/
def stopCalls (cleanup : Bool) (cs : List Container) : List Call :=
  cs.flatMap (fun c => Call.StopContainer c 60 :: (if cleanup then [Call.RemoveImage c] else []))

/-- The containers on which a record of calls has a `StopContainer`, in call order. -/
def stopped (calls : List Call) : List Container :=
  calls.filterMap (fun call => match call with
    | Call.StopContainer c _ => some c
    | _ => none)

/-- The containers on which a record of calls has a `RemoveImage`, in call order. -/
def removed (calls : List Call) : List Container :=
  calls.filterMap (fun call => match call with
    | Call.RemoveImage c => some c
    | _ => none)

/-- Modelled from the spec: a container runtime behind the client (the client's
implementation is not among the sources). The state is the list of running
containers. `ListContainers(filter)` returns the running containers the filter accepts,
or fails when `listErr` is set; `StopContainer` is "best-effort per call": it either
fails and leaves its container running (`stopFails c`) or takes it off the running
list; `RemoveImage` is best-effort too and does not change what is running. -/
def runtimeClient (listErr : Option String) (stopFails removeFails : Container → Bool) :
    Client (List Container) where
  ListContainers fn running :=
    match listErr with
    | some err => (.error err, running)
    | none => (.ok (running.filter (fun c => fn c.toFilterableContainer)), running)
  StopContainer c _ running :=
    if stopFails c then (some "stop failed", running)
    else (none, running.filter (fun d => decide (d ≠ c)))
  RemoveImage c running :=
    if removeFails c then (some "remove failed", running) else (none, running)

/-- A running watchtower instance named `name`, labelled with `tag`, created at `t`. -/
def mkWatchtower (name tag : String) (t : Nat) : Container :=
  { Name := name, IsWatchtower := true, WatchtowerTag := (tag, true), Created := t }

/-- The element that a stable ascending sort by creation time would put last: the last
one, in input order, among the containers of greatest creation time. -/
def newestLast (cs : List Container) : Option Container :=
  (cs.filter (fun c => cs.all (fun d => decide (d.Created ≤ c.Created)))).getLast?

/-- The number of running containers that `BuildWatchtowerContainersFilter(tag)` accepts. -/
def runningInstances (tag : String) (running : List Container) : Nat :=
  (running.filter (fun c => BuildWatchtowerContainersFilter tag c.toFilterableContainer)).length

/-! ## main.go: before -/

/-- The command-line context as `before` reads it: for each flag with a value, `none`
when the flag was not set and the value given otherwise. Durations are in nanoseconds. -/
structure Context where
  interval : Option Int
  schedule : Option String
  cleanup : Bool
  noRestart : Bool
  stopTimeout : Option Int
  tag : Option String

/-- `c.IsSet("interval")`. -/
def Context.IsSetInterval (c : Context) : Bool := c.interval.isSome

/-- `c.IsSet("schedule")`. -/
def Context.IsSetSchedule (c : Context) : Bool := c.schedule.isSome

/-- `c.Int("interval")`; the flag is declared with `Value: 300`. -/
def Context.IntInterval (c : Context) : Int := c.interval.getD 300

/-- `c.String("schedule")`; the flag is declared without a value, so it defaults to the
empty string. -/
def Context.StringSchedule (c : Context) : String := c.schedule.getD ""

/-- `c.GlobalDuration("stop-timeout")`; the flag is declared with
`Value: time.Second * 10`. -/
def Context.GlobalDurationStopTimeout (c : Context) : Int := c.stopTimeout.getD (1000000000 * 10)

/-- `c.String("tag")`; the flag is declared without a value. -/
def Context.StringTag (c : Context) : String := c.tag.getD ""

/-- The package-level variables that `before` assigns from the flags. -/
structure Settings where
  scheduleSpec : String
  cleanup : Bool
  noRestart : Bool
  timeout : Int
  tag : String
deriving DecidableEq, Repr

/-- `strconv.Itoa`: the decimal representation of an integer. -/
def Itoa (i : Int) : String := toString i

/-- The resolution of the schedule, the stop timeout and the tag in `before`
(main.go, lines 186 to 207). A call of `log.Fatal(msg)`, which reports `msg` and
terminates the process, is the result `Except.error msg`; otherwise the result is the
values assigned to the package-level variables. What follows line 207 (`envConfig`, the
making of the client and of the notifier) is not part of the resolution. -/
def before (c : Context) : Except String Settings :=
  let pollingSet := c.IsSetInterval
  let cronSet := c.IsSetSchedule
  if pollingSet && cronSet then
    .error "Only schedule or interval can be defined, not both."
  else
    let scheduleSpec :=
      if cronSet then c.StringSchedule else "@every " ++ Itoa c.IntInterval ++ "s"
    let cleanup := c.cleanup
    let noRestart := c.noRestart
    let timeout := c.GlobalDurationStopTimeout
    if timeout < 0 then
      .error "Please specify a positive value for timeout value."
    else
      let tag := c.StringTag
      if tag.length == 0 then
        .error "Please specify a tag to check for on other containers"
      else
        .ok { scheduleSpec := scheduleSpec, cleanup := cleanup, noRestart := noRestart,
              timeout := timeout, tag := tag }

/-! ## main.go: start

The function scheduled with `cron.AddFunc` (lines 234 to 251) runs once per trigger, each
run in a goroutine of its own, while the main goroutine waits for a signal (lines 266 to
270). They share the channel `tryLockSem`, made with capacity 1 and filled with one
value (lines 228 and 229). The embedding is a step function over the states of this
system: a label names the goroutine that takes its next step. It starts where the
scheduler has been started (line 259), so `CheckPrereqs` and `cron.AddFunc` have returned
without error; the hooks and `actions.Update` are taken to return, with or without an
error. -/

/-- The statement that one run of the scheduled function executes next. The value
received from `tryLockSem` is `v`; `err` records whether `actions.Update` failed. -/
inductive JobPC where
  /-- Line 235: the `select`. -/
  | select
  /-- Line 238: `notifier.StartNotification()`; the release of line 237 is deferred. -/
  | startNotification (v : Bool)
  /-- Line 239: `actions.Update(...)`, and `log.Println(err)` if it failed. -/
  | update (v : Bool)
  /-- Line 242: `notifier.SendNotification()`. -/
  | sendNotification (v : Bool) (err : Bool)
  /-- Lines 247 to 250: the debug output of the next run. `held` is `none` when the
  `default` case of the `select` was taken. -/
  | nextRuns (held : Option (Bool × Bool))
  /-- The deferred function of line 237: `tryLockSem <- v`. -/
  | release (v : Bool) (err : Bool)
  /-- The function has returned; `ran` is `none` when the update was skipped. -/
  | returned (ran : Option Bool)
deriving DecidableEq, Repr

/-- The statement that the main goroutine executes next, from line 266 on. -/
inductive MainPC where
  /-- Line 266: `<-interrupt`. -/
  | waitInterrupt
  /-- Line 267: `cron.Stop()`. -/
  | cronStop
  /-- Line 269: `<-tryLockSem`. -/
  | waitSem
  /-- Line 270: `os.Exit(1)`. -/
  | exit
  /-- The process has terminated. -/
  | exited
deriving DecidableEq, Repr

/-- What one run of the scheduled function does that others can observe. -/
inductive JobEvent where
  | acquire
  | StartNotification
  | Update (err : Bool)
  | SendNotification
  | skip
  | release
deriving DecidableEq, Repr

/-- An entry of the history of the system: an event of run number `i` of the scheduled
function, or an event of the scheduler or of the main goroutine. -/
inductive Event where
  | job (i : Nat) (e : JobEvent)
  | trigger
  | interrupt
  | cronStop
  | shutdownAcquire
  | exit
deriving DecidableEq, Repr

/-- The state of the running system: the buffer of the channel `tryLockSem`, whether the
scheduler is running, where each run of the scheduled function stands, where the main
goroutine stands, and the history so far. -/
structure State where
  tryLockSem : List Bool
  cronRunning : Bool
  jobs : List JobPC
  main : MainPC
  log : List Event
deriving DecidableEq, Repr

/-- The state once `start` has made and filled the channel (lines 228, 229), started the
scheduler (line 259) and reached `<-interrupt` (line 266). -/
def State.initial : State :=
  { tryLockSem := [true], cronRunning := true, jobs := [], main := MainPC.waitInterrupt, log := [] }

/-- Who takes the next step: the scheduler firing a trigger, run number `i` of the
scheduled function (`updateErr` tells whether `actions.Update` fails, should this step be
the update), or the main goroutine. -/
inductive Label where
  | trigger
  | job (i : Nat) (updateErr : Bool)
  | main
deriving DecidableEq, Repr

/-- One step of run number `i` of the scheduled function; `none` when the run cannot
take a step (it has returned, or its channel send would block). -/
def stepJob (s : State) (i : Nat) (updateErr : Bool) : Option State :=
  match s.jobs[i]? with
  | none => none
  | some JobPC.select =>
    match s.tryLockSem with
    | v :: rest =>
      -- case v := <-tryLockSem
      some { s with tryLockSem := rest, jobs := s.jobs.set i (JobPC.startNotification v),
                    log := s.log ++ [Event.job i JobEvent.acquire] }
    | [] =>
      -- default: log.Debug("Skipped another update already running.")
      some { s with jobs := s.jobs.set i (JobPC.nextRuns none),
                    log := s.log ++ [Event.job i JobEvent.skip] }
  | some (JobPC.startNotification v) =>
    some { s with jobs := s.jobs.set i (JobPC.update v),
                  log := s.log ++ [Event.job i JobEvent.StartNotification] }
  | some (JobPC.update v) =>
    some { s with jobs := s.jobs.set i (JobPC.sendNotification v updateErr),
                  log := s.log ++ [Event.job i (JobEvent.Update updateErr)] }
  | some (JobPC.sendNotification v err) =>
    some { s with jobs := s.jobs.set i (JobPC.nextRuns (some (v, err))),
                  log := s.log ++ [Event.job i JobEvent.SendNotification] }
  | some (JobPC.nextRuns (some (v, err))) =>
    some { s with jobs := s.jobs.set i (JobPC.release v err) }
  | some (JobPC.nextRuns none) =>
    some { s with jobs := s.jobs.set i (JobPC.returned none) }
  | some (JobPC.release v err) =>
    -- tryLockSem <- v, which blocks while the buffer (capacity 1) is full
    if s.tryLockSem.length < 1 then
      some { s with tryLockSem := s.tryLockSem ++ [v], jobs := s.jobs.set i (JobPC.returned (some err)),
                    log := s.log ++ [Event.job i JobEvent.release] }
    else none
  | some (JobPC.returned _) => none

/-- One step of the main goroutine; `none` when it cannot take a step (the receive of
line 269 blocks while the channel is empty, and nothing follows the exit). -/
def stepMain (s : State) : Option State :=
  match s.main with
  | MainPC.waitInterrupt =>
    some { s with main := MainPC.cronStop, log := s.log ++ [Event.interrupt] }
  | MainPC.cronStop =>
    some { s with main := MainPC.waitSem, cronRunning := false, log := s.log ++ [Event.cronStop] }
  | MainPC.waitSem =>
    match s.tryLockSem with
    | _ :: rest =>
      some { s with tryLockSem := rest, main := MainPC.exit, log := s.log ++ [Event.shutdownAcquire] }
    | [] => none
  | MainPC.exit =>
    some { s with main := MainPC.exited, log := s.log ++ [Event.exit] }
  | MainPC.exited => none

/-- One step of the system. Nothing runs once the process has exited; the scheduler
starts a new run of the scheduled function only while it is running. -/
def step (s : State) (l : Label) : Option State :=
  if s.main = MainPC.exited then none
  else
    match l with
    | Label.trigger =>
      if s.cronRunning then
        some { s with jobs := s.jobs ++ [JobPC.select], log := s.log ++ [Event.trigger] }
      else none
    | Label.job i updateErr => stepJob s i updateErr
    | Label.main => stepMain s

/-- The state after the steps `ls`, if all of them can be taken. -/
def run (s : State) : List Label → Option State
  | [] => some s
  | l :: ls =>
    match step s l with
    | none => none
    | some s' => run s' ls

/-- Whether a run of the scheduled function holds the permit, that is, is inside its
update cycle: from the receive of line 236 until the deferred send of line 237. -/
def JobPC.inCycle : JobPC → Bool
  | JobPC.startNotification _ => true
  | JobPC.update _ => true
  | JobPC.sendNotification _ _ => true
  | JobPC.nextRuns (some _) => true
  | JobPC.release _ _ => true
  | _ => false

/-- Whether the main goroutine holds the permit: after the receive of line 269. -/
def MainPC.holdsPermit : MainPC → Bool
  | MainPC.exit => true
  | MainPC.exited => true
  | _ => false

/-- The number of permits in the hands of runs of the scheduled function. -/
def State.cycles (s : State) : Nat := s.jobs.countP JobPC.inCycle

/-- The events of run number `i` in a history, in order. -/
def eventsOf (i : Nat) (log : List Event) : List JobEvent :=
  log.filterMap (fun e => match e with
    | Event.job j e => if j = i then some e else none
    | _ => none)

/-- The events a run of the scheduled function has produced when it stands at a given
statement. -/
def JobPC.trail : JobPC → List JobEvent
  | JobPC.select => []
  | JobPC.startNotification _ => [JobEvent.acquire]
  | JobPC.update _ => [JobEvent.acquire, JobEvent.StartNotification]
  | JobPC.sendNotification _ err =>
    [JobEvent.acquire, JobEvent.StartNotification, JobEvent.Update err]
  | JobPC.nextRuns (some (_, err)) =>
    [JobEvent.acquire, JobEvent.StartNotification, JobEvent.Update err, JobEvent.SendNotification]
  | JobPC.nextRuns none => [JobEvent.skip]
  | JobPC.release _ err =>
    [JobEvent.acquire, JobEvent.StartNotification, JobEvent.Update err, JobEvent.SendNotification]
  | JobPC.returned (some err) =>
    [JobEvent.acquire, JobEvent.StartNotification, JobEvent.Update err, JobEvent.SendNotification,
      JobEvent.release]
  | JobPC.returned none => [JobEvent.skip]

/-- The effect of one event on the gate: `some true` when the permit is taken,
`some false` when it is available, `none` once an acquire has succeeded while the permit
was taken or a release has happened while it was available. -/
def gateAfter (held : Option Bool) (e : Event) : Option Bool :=
  match e with
  | Event.job _ JobEvent.acquire => if held = some false then some true else none
  | Event.shutdownAcquire => if held = some false then some true else none
  | Event.job _ JobEvent.release => if held = some true then some false else none
  | _ => held

/-- The gate after a whole history, starting with the permit available. -/
def gateOf (log : List Event) : Option Bool := log.foldl gateAfter (some false)

/-- The steps of the system, case by case: `Step s s'` holds when some goroutine can
take its next step in `s` and `s'` is the state after it. -/
inductive Step : State → State → Prop where
  | trigger (s : State) (hm : s.main ≠ MainPC.exited) (hc : s.cronRunning = true) :
    Step s { s with jobs := s.jobs ++ [JobPC.select], log := s.log ++ [Event.trigger] }
  | acquire (s : State) (i : Nat) (v : Bool) (rest : List Bool) (hm : s.main ≠ MainPC.exited)
      (hj : s.jobs[i]? = some JobPC.select) (hs : s.tryLockSem = v :: rest) :
    Step s { s with tryLockSem := rest, jobs := s.jobs.set i (JobPC.startNotification v),
                    log := s.log ++ [Event.job i JobEvent.acquire] }
  | skip (s : State) (i : Nat) (hm : s.main ≠ MainPC.exited)
      (hj : s.jobs[i]? = some JobPC.select) (hs : s.tryLockSem = []) :
    Step s { s with jobs := s.jobs.set i (JobPC.nextRuns none),
                    log := s.log ++ [Event.job i JobEvent.skip] }
  | startNotification (s : State) (i : Nat) (v : Bool) (hm : s.main ≠ MainPC.exited)
      (hj : s.jobs[i]? = some (JobPC.startNotification v)) :
    Step s { s with jobs := s.jobs.set i (JobPC.update v),
                    log := s.log ++ [Event.job i JobEvent.StartNotification] }
  | update (s : State) (i : Nat) (v err : Bool) (hm : s.main ≠ MainPC.exited)
      (hj : s.jobs[i]? = some (JobPC.update v)) :
    Step s { s with jobs := s.jobs.set i (JobPC.sendNotification v err),
                    log := s.log ++ [Event.job i (JobEvent.Update err)] }
  | sendNotification (s : State) (i : Nat) (v err : Bool) (hm : s.main ≠ MainPC.exited)
      (hj : s.jobs[i]? = some (JobPC.sendNotification v err)) :
    Step s { s with jobs := s.jobs.set i (JobPC.nextRuns (some (v, err))),
                    log := s.log ++ [Event.job i JobEvent.SendNotification] }
  | nextRunsHeld (s : State) (i : Nat) (v err : Bool) (hm : s.main ≠ MainPC.exited)
      (hj : s.jobs[i]? = some (JobPC.nextRuns (some (v, err)))) :
    Step s { s with jobs := s.jobs.set i (JobPC.release v err) }
  | nextRunsSkipped (s : State) (i : Nat) (hm : s.main ≠ MainPC.exited)
      (hj : s.jobs[i]? = some (JobPC.nextRuns none)) :
    Step s { s with jobs := s.jobs.set i (JobPC.returned none) }
  | release (s : State) (i : Nat) (v err : Bool) (hm : s.main ≠ MainPC.exited)
      (hj : s.jobs[i]? = some (JobPC.release v err)) (hs : s.tryLockSem.length < 1) :
    Step s { s with tryLockSem := s.tryLockSem ++ [v],
                    jobs := s.jobs.set i (JobPC.returned (some err)),
                    log := s.log ++ [Event.job i JobEvent.release] }
  | interrupt (s : State) (hm : s.main = MainPC.waitInterrupt) :
    Step s { s with main := MainPC.cronStop, log := s.log ++ [Event.interrupt] }
  | cronStop (s : State) (hm : s.main = MainPC.cronStop) :
    Step s { s with main := MainPC.waitSem, cronRunning := false,
                    log := s.log ++ [Event.cronStop] }
  | shutdownAcquire (s : State) (v : Bool) (rest : List Bool) (hm : s.main = MainPC.waitSem)
      (hs : s.tryLockSem = v :: rest) :
    Step s { s with tryLockSem := rest, main := MainPC.exit,
                    log := s.log ++ [Event.shutdownAcquire] }
  | exit (s : State) (hm : s.main = MainPC.exit) :
    Step s { s with main := MainPC.exited, log := s.log ++ [Event.exit] }

/-- The events of the main goroutine in a history, in order. -/
def mainEvents (log : List Event) : List Event :=
  log.filter (fun e => match e with
    | Event.job _ _ => false
    | Event.trigger => false
    | _ => true)

/-- The events the main goroutine has produced when it stands at a given statement. -/
def MainPC.trail : MainPC → List Event
  | MainPC.waitInterrupt => []
  | MainPC.cronStop => [Event.interrupt]
  | MainPC.waitSem => [Event.interrupt, Event.cronStop]
  | MainPC.exit => [Event.interrupt, Event.cronStop, Event.shutdownAcquire]
  | MainPC.exited => [Event.interrupt, Event.cronStop, Event.shutdownAcquire, Event.exit]

/-- The invariant of the system. -/
structure Inv (s : State) : Prop where
  permit : s.tryLockSem.length + s.cycles + (if s.main.holdsPermit then 1 else 0) = 1
  cronStopped : s.cronRunning = true → s.main = MainPC.waitInterrupt ∨ s.main = MainPC.cronStop
  trails : ∀ i, eventsOf i s.log = ((s.jobs[i]?).map JobPC.trail).getD []
  gate : gateOf s.log = some s.tryLockSem.isEmpty
  mainTrail : mainEvents s.log = s.main.trail
  exitLast : s.main = MainPC.exited → ∃ pre, s.log = pre ++ [Event.exit] ∧
    ∀ i, Event.job i JobEvent.acquire ∈ pre → Event.job i JobEvent.release ∈ pre

/-- A schedule in which a second trigger fires while the first run is in its cycle. -/
def overlapLabels : List Label :=
  [Label.trigger, Label.job 0 false, Label.job 0 false, Label.trigger, Label.job 1 false]

/-- The state that `overlapLabels` leads to: run 0 is about to update, run 1 has skipped. -/
def overlapState : State :=
  { tryLockSem := [], cronRunning := true,
    jobs := [JobPC.update true, JobPC.nextRuns none], main := MainPC.waitInterrupt,
    log := [Event.trigger, Event.job 0 JobEvent.acquire, Event.job 0 JobEvent.StartNotification,
      Event.trigger, Event.job 1 JobEvent.skip] }

/-- A schedule in which the interrupt arrives while run 0 is in its cycle: the run
finishes (with a failing update) and only then can the main goroutine go on to exit. -/
def slowCycleLabels : List Label :=
  [Label.trigger, Label.job 0 true, Label.job 0 true, Label.main, Label.main,
    Label.job 0 true, Label.job 0 true, Label.job 0 true, Label.job 0 true,
    Label.main, Label.main]

/-- The state that `slowCycleLabels` leads to. -/
def slowCycleState : State :=
  { tryLockSem := [], cronRunning := false,
    jobs := [JobPC.returned (some true)], main := MainPC.exited,
    log := [Event.trigger, Event.job 0 JobEvent.acquire, Event.job 0 JobEvent.StartNotification,
      Event.interrupt, Event.cronStop, Event.job 0 (JobEvent.Update true),
      Event.job 0 JobEvent.SendNotification, Event.job 0 JobEvent.release,
      Event.shutdownAcquire, Event.exit] }

/-! ## Theorems: container/filters.go -/

/-- C1: the watchtower-containers filter accepts a container exactly when it is a
watchtower instance and reports the tag as present and equal to the filter's tag; it
rejects exactly when one of the two fails. -/
theorem BuildWatchtowerContainersFilter_iff (tag : String) (c : FilterableContainer) :
    (BuildWatchtowerContainersFilter tag c = true ↔
      c.IsWatchtower = true ∧ ∃ t, c.WatchtowerTag = (t, true) ∧ t = tag) ∧
    (BuildWatchtowerContainersFilter tag c = false ↔
      c.IsWatchtower = false ∨ ¬ ∃ t, c.WatchtowerTag = (t, true) ∧ t = tag) := by
  obtain ⟨name, isW, t, has⟩ := c
  cases isW <;> cases has <;> simp [BuildWatchtowerContainersFilter]

/-- C2: the tag filter accepts a container exactly when it reports the tag as present
and equal to the filter's tag, whatever `IsWatchtower` returns; a tag reported absent is
rejected even when the returned string equals the filter's tag. -/
theorem BuildTagFilter_iff (tag : String) (c : FilterableContainer) :
    (BuildTagFilter tag c = true ↔ ∃ t, c.WatchtowerTag = (t, true) ∧ t = tag) ∧
    (∀ b : Bool, BuildTagFilter tag { c with IsWatchtower := b } = BuildTagFilter tag c) ∧
    (∀ (name : String) (b : Bool),
      BuildTagFilter tag { Name := name, IsWatchtower := b, WatchtowerTag := (tag, false) } = false) := by
  obtain ⟨name, isW, t, has⟩ := c
  cases has <;> simp [BuildTagFilter]

/-! ## Theorems: actions/check.go -/

theorem body_recording_fst {σ : Type} (client : Client σ) (cleanup : Bool) (s : σ × List Call)
    (c : Container) :
    (CheckPrereqs.body client.recording cleanup s c).1 = CheckPrereqs.body client cleanup s.1 c := by
  cases cleanup <;> simp [CheckPrereqs.body, Client.recording]

theorem body_recording_snd {σ : Type} (client : Client σ) (cleanup : Bool) (s : σ × List Call)
    (c : Container) :
    (CheckPrereqs.body client.recording cleanup s c).2 = s.2 ++ stopCalls cleanup [c] := by
  cases cleanup <;> simp [CheckPrereqs.body, Client.recording, stopCalls]

theorem stopCalls_cons (cleanup : Bool) (c : Container) (l : List Container) :
    stopCalls cleanup (c :: l) = stopCalls cleanup [c] ++ stopCalls cleanup l := by
  simp [stopCalls]

theorem foldl_body_recording {σ : Type} (client : Client σ) (cleanup : Bool) (l : List Container) :
    ∀ s : σ × List Call,
      l.foldl (CheckPrereqs.body client.recording cleanup) s =
        (l.foldl (CheckPrereqs.body client cleanup) s.1, s.2 ++ stopCalls cleanup l) := by
  induction l with
  | nil => intro s; simp [stopCalls]
  | cons c l ih =>
    intro s
    rw [List.foldl_cons, ih, body_recording_fst, body_recording_snd, List.foldl_cons,
      stopCalls_cons cleanup c l, List.append_assoc]

/-- The calls `CheckPrereqs` makes and what it returns, in terms of what `ListContainers`
returned. -/
theorem CheckPrereqs_recording {σ : Type} (sortSort : List Container → List Container)
    (client : Client σ) (tag : String) (cleanup : Bool) (s : σ) :
    (CheckPrereqs sortSort client.recording tag cleanup (s, [])).1 =
      (CheckPrereqs sortSort client tag cleanup s).1 ∧
    (CheckPrereqs sortSort client.recording tag cleanup (s, [])).2.1 =
      (CheckPrereqs sortSort client tag cleanup s).2 ∧
    (CheckPrereqs sortSort client.recording tag cleanup (s, [])).2.2 =
      match (client.ListContainers (BuildWatchtowerContainersFilter tag) s).1 with
      | .error _ => [Call.ListContainers]
      | .ok cs => Call.ListContainers :: stopCalls cleanup ((sortSort cs).take (cs.length - 1)) := by
  unfold CheckPrereqs
  rcases h : client.ListContainers (BuildWatchtowerContainersFilter tag) s with ⟨r, s1⟩
  have h' : client.recording.ListContainers (BuildWatchtowerContainersFilter tag) (s, []) =
      (r, (s1, [Call.ListContainers])) := by
    simp [Client.recording, h]
  rw [h']
  cases r with
  | error e => simp
  | ok cs =>
    by_cases hlen : cs.length > 1
    · simp [hlen, foldl_body_recording]
    · have : cs.length - 1 = 0 := by omega
      simp [hlen, this, stopCalls]

theorem stopped_stopCalls (cleanup : Bool) (l : List Container) :
    stopped (stopCalls cleanup l) = l := by
  induction l with
  | nil => rfl
  | cons c l ih =>
    rw [stopCalls_cons]
    cases cleanup <;> simp_all [stopped, stopCalls, List.filterMap_append]

theorem removed_stopCalls (cleanup : Bool) (l : List Container) :
    removed (stopCalls cleanup l) = if cleanup then l else [] := by
  induction l with
  | nil => cases cleanup <;> rfl
  | cons c l ih =>
    rw [stopCalls_cons]
    cases cleanup <;> simp_all [removed, stopCalls, List.filterMap_append]

theorem timeout_stopCalls (cleanup : Bool) (l : List Container) (c : Container) (t : Nat)
    (h : Call.StopContainer c t ∈ stopCalls cleanup l) : t = 60 := by
  simp only [stopCalls, List.mem_flatMap, List.mem_cons] at h
  obtain ⟨d, -, h | h⟩ := h
  · injection h with _ h2
  · cases cleanup <;> simp at h

/-- Under the sort contract the slice `containers[0 : len(containers)-1]` is the sorted
list without its last element. -/
theorem take_eq_dropLast (sortSort : List Container → List Container) (cs : List Container)
    (hperm : (sortSort cs).Perm cs) :
    (sortSort cs).take (cs.length - 1) = (sortSort cs).dropLast := by
  rw [List.dropLast_eq_take, hperm.length_eq]

/-- The last element of a list sorted by creation time is created no earlier than any
other. -/
theorem created_le_last (l : List Container) (last : Container)
    (h : (l ++ [last]).Pairwise (fun a b => ByCreated.Less b a = false)) :
    ∀ c ∈ l ++ [last], c.Created ≤ last.Created := by
  intro c hc
  rw [List.pairwise_append] at h
  rcases List.mem_append.mp hc with hc | hc
  · have := h.2.2 c hc last (List.mem_singleton_self _)
    simpa [ByCreated.Less] using this
  · rw [List.mem_singleton.mp hc]

/-- The calls of `CheckPrereqs` when the listing succeeds with `cs` and the sort meets
its contract on `cs`. -/
theorem calls_of_listing {σ : Type} (sortSort : List Container → List Container)
    (client : Client σ) (tag : String) (cleanup : Bool) (s s1 : σ) (cs : List Container)
    (hlist : client.ListContainers (BuildWatchtowerContainersFilter tag) s = (Except.ok cs, s1))
    (hsort : SortsByCreated sortSort cs) :
    (CheckPrereqs sortSort client.recording tag cleanup (s, [])).2.2 =
      Call.ListContainers :: stopCalls cleanup (sortSort cs).dropLast ∧
    stopped (CheckPrereqs sortSort client.recording tag cleanup (s, [])).2.2 =
      (sortSort cs).dropLast ∧
    (stopped (CheckPrereqs sortSort client.recording tag cleanup (s, [])).2.2).length =
      cs.length - 1 ∧
    (cs.length ≤ 1 →
      (CheckPrereqs sortSort client.recording tag cleanup (s, [])).2.2 = [Call.ListContainers]) ∧
    (1 < cs.length → ∃ last,
      (stopped (CheckPrereqs sortSort client.recording tag cleanup (s, [])).2.2 ++ [last]).Perm cs ∧
      ∀ c ∈ cs, c.Created ≤ last.Created) ∧
    removed (CheckPrereqs sortSort client.recording tag cleanup (s, [])).2.2 =
      (if cleanup then (sortSort cs).dropLast else []) ∧
    (∀ c t, Call.StopContainer c t ∈
      (CheckPrereqs sortSort client.recording tag cleanup (s, [])).2.2 → t = 60) := by
  have hcalls : (CheckPrereqs sortSort client.recording tag cleanup (s, [])).2.2 =
      Call.ListContainers :: stopCalls cleanup (sortSort cs).dropLast := by
    rw [(CheckPrereqs_recording sortSort client tag cleanup s).2.2, hlist]
    simp only
    rw [take_eq_dropLast sortSort cs hsort.1]
  have hstopped : stopped (Call.ListContainers :: stopCalls cleanup (sortSort cs).dropLast) =
      (sortSort cs).dropLast := by
    have := stopped_stopCalls cleanup (sortSort cs).dropLast
    simpa [stopped] using this
  have hremoved : removed (Call.ListContainers :: stopCalls cleanup (sortSort cs).dropLast) =
      if cleanup then (sortSort cs).dropLast else [] := by
    have := removed_stopCalls cleanup (sortSort cs).dropLast
    simpa [removed] using this
  rw [hcalls, hstopped, hremoved]
  refine ⟨rfl, rfl, ?_, ?_, ?_, rfl, ?_⟩
  · rw [List.length_dropLast, hsort.1.length_eq]
  · intro hle
    have hlen : (sortSort cs).dropLast.length = 0 := by
      rw [List.length_dropLast, hsort.1.length_eq]; omega
    rw [List.length_eq_zero.mp hlen]
    rfl
  · intro hlt
    have hne : sortSort cs ≠ [] := by
      intro h
      have := hsort.1.length_eq
      rw [h] at this
      simp at this
      omega
    refine ⟨(sortSort cs).getLast hne, ?_, ?_⟩
    · rw [List.dropLast_append_getLast hne]
      exact hsort.1
    · intro c hc
      have hp := hsort.2
      rw [← List.dropLast_append_getLast hne] at hp
      apply created_le_last _ _ hp
      rw [List.dropLast_append_getLast hne]
      exact hsort.1.mem_iff.mpr hc
  · intro c t h
    rcases List.mem_cons.mp h with h | h
    · cases h
    · exact timeout_stopCalls cleanup _ c t h

/-- C3: when `ListContainers` returns the list `cs` of N containers, the calls made are
`ListContainers` and then, for each container of the sorted list except the last, in
that order, `StopContainer(c, 60)` followed by `RemoveImage(c)` exactly when `cleanup`
is set, whatever those calls return. So N-1 containers are stopped, all but one of
greatest creation time; nothing is stopped or removed when N is at most 1; no image is
removed when `cleanup` is off. -/
theorem CheckPrereqs_calls {σ : Type} (sortSort : List Container → List Container)
    (client : Client σ) (tag : String) (cleanup : Bool) (s s1 : σ) (cs : List Container)
    (hlist : client.ListContainers (BuildWatchtowerContainersFilter tag) s = (Except.ok cs, s1))
    (hsort : SortsByCreated sortSort cs) :
    (CheckPrereqs sortSort client.recording tag cleanup (s, [])).2.2 =
      Call.ListContainers :: stopCalls cleanup (sortSort cs).dropLast ∧
    stopped (CheckPrereqs sortSort client.recording tag cleanup (s, [])).2.2 =
      (sortSort cs).dropLast ∧
    (stopped (CheckPrereqs sortSort client.recording tag cleanup (s, [])).2.2).length =
      cs.length - 1 ∧
    (cs.length ≤ 1 →
      (CheckPrereqs sortSort client.recording tag cleanup (s, [])).2.2 = [Call.ListContainers]) ∧
    (1 < cs.length → ∃ last,
      (stopped (CheckPrereqs sortSort client.recording tag cleanup (s, [])).2.2 ++ [last]).Perm cs ∧
      ∀ c ∈ cs, c.Created ≤ last.Created) ∧
    removed (CheckPrereqs sortSort client.recording tag cleanup (s, [])).2.2 =
      (if cleanup then (sortSort cs).dropLast else []) ∧
    (∀ c t, Call.StopContainer c t ∈
      (CheckPrereqs sortSort client.recording tag cleanup (s, [])).2.2 → t = 60) :=
  calls_of_listing sortSort client tag cleanup s s1 cs hlist hsort

/-- C5: `CheckPrereqs` returns an error exactly when `ListContainers` fails, and then
that very error, having made no other call; when the listing succeeds it returns no
error and makes every stop and remove call of the sorted list but the last, whatever
the client's `StopContainer` and `RemoveImage` do or return. -/
theorem CheckPrereqs_error {σ : Type} (sortSort : List Container → List Container)
    (client : Client σ) (tag : String) (cleanup : Bool) (s : σ) :
    ((CheckPrereqs sortSort client tag cleanup s).1 ≠ none ↔
      ∃ err, (client.ListContainers (BuildWatchtowerContainersFilter tag) s).1 = Except.error err) ∧
    (CheckPrereqs sortSort client tag cleanup s).1 =
      (match (client.ListContainers (BuildWatchtowerContainersFilter tag) s).1 with
        | .error err => some err
        | .ok _ => none) ∧
    (CheckPrereqs sortSort client.recording tag cleanup (s, [])).2.2 =
      (match (client.ListContainers (BuildWatchtowerContainersFilter tag) s).1 with
        | .error _ => [Call.ListContainers]
        | .ok cs => Call.ListContainers :: stopCalls cleanup ((sortSort cs).take (cs.length - 1))) := by
  refine ⟨?_, ?_, (CheckPrereqs_recording sortSort client tag cleanup s).2.2⟩
  · unfold CheckPrereqs
    rcases h : client.ListContainers (BuildWatchtowerContainersFilter tag) s with ⟨r, s1⟩
    cases r with
    | error e => simp
    | ok cs => by_cases hlen : cs.length > 1 <;> simp [hlen]
  · unfold CheckPrereqs
    rcases h : client.ListContainers (BuildWatchtowerContainersFilter tag) s with ⟨r, s1⟩
    cases r with
    | error e => simp
    | ok cs => by_cases hlen : cs.length > 1 <;> simp [hlen]

/-- Two sorted arrangements of the same containers agree when the creation times are
pairwise distinct. -/
theorem sorted_unique (l₁ l₂ : List Container) (hperm : l₁.Perm l₂)
    (hdistinct : (l₂.map (fun c => c.Created)).Nodup)
    (h₁ : l₁.Pairwise (fun a b => ByCreated.Less b a = false))
    (h₂ : l₂.Pairwise (fun a b => ByCreated.Less b a = false)) : l₁ = l₂ := by
  have hd₂ : l₂.Pairwise (fun a b => a.Created ≠ b.Created) := by
    simpa [List.Nodup, List.pairwise_map] using hdistinct
  have hd₁ : l₁.Pairwise (fun a b => a.Created ≠ b.Created) := by
    have : (l₁.map (fun c => c.Created)).Nodup := (hperm.map _).nodup_iff.mpr hdistinct
    simpa [List.Nodup, List.pairwise_map] using this
  have strict : ∀ l : List Container, l.Pairwise (fun a b => ByCreated.Less b a = false) →
      l.Pairwise (fun a b => a.Created ≠ b.Created) →
      l.Pairwise (fun a b => a.Created < b.Created) := by
    intro l hs hd
    refine (hs.and hd).imp ?_
    intro a b h
    have h1 : a.Created ≤ b.Created := by simpa [ByCreated.Less] using h.1
    exact lt_of_le_of_ne h1 h.2
  exact List.eq_of_perm_of_sorted hperm (strict l₁ h₁ hd₁) (strict l₂ h₂ hd₂)

/-- C4: for containers with pairwise distinct creation times, `CheckPrereqs` makes the
same calls on every permutation of the listed containers: it stops every container
but the one of greatest creation time, which it does not stop. -/
theorem CheckPrereqs_permutation {σ σ' : Type} (sortSort : List Container → List Container)
    (client : Client σ) (client' : Client σ') (tag : String) (cleanup : Bool)
    (s s1 : σ) (s' s1' : σ') (cs cs' : List Container)
    (hlist : client.ListContainers (BuildWatchtowerContainersFilter tag) s = (Except.ok cs, s1))
    (hlist' : client'.ListContainers (BuildWatchtowerContainersFilter tag) s' = (Except.ok cs', s1'))
    (hperm : cs'.Perm cs)
    (hdistinct : (cs.map (fun c => c.Created)).Nodup)
    (hsort : SortsByCreated sortSort cs) (hsort' : SortsByCreated sortSort cs') :
    (CheckPrereqs sortSort client'.recording tag cleanup (s', [])).2.2 =
      (CheckPrereqs sortSort client.recording tag cleanup (s, [])).2.2 ∧
    ∀ m ∈ cs, (∀ c ∈ cs, c.Created ≤ m.Created) →
      m ∉ stopped (CheckPrereqs sortSort client.recording tag cleanup (s, [])).2.2 ∧
      ∀ c ∈ cs, c ≠ m →
        c ∈ stopped (CheckPrereqs sortSort client.recording tag cleanup (s, [])).2.2 := by
  have hc := (calls_of_listing sortSort client tag cleanup s s1 cs hlist hsort)
  have hc' := (calls_of_listing sortSort client' tag cleanup s' s1' cs' hlist' hsort')
  have hsd : (sortSort cs).map (fun c => c.Created) |>.Nodup :=
    (hsort.1.map _).nodup_iff.mpr hdistinct
  have heq : sortSort cs' = sortSort cs :=
    sorted_unique _ _ ((hsort'.1.trans hperm).trans hsort.1.symm) hsd hsort'.2 hsort.2
  refine ⟨by rw [hc'.1, hc.1, heq], ?_⟩
  intro m hm hmax
  rw [hc.2.1]
  have hne : sortSort cs ≠ [] := by
    intro h
    have := hsort.1.mem_iff.mpr hm
    rw [h] at this
    cases this
  have hsplit := List.dropLast_append_getLast hne
  have hnodup : (sortSort cs).Nodup := hsd.of_map _
  have hlastmem : (sortSort cs).getLast hne ∈ cs := hsort.1.mem_iff.mp (List.getLast_mem hne)
  have hlastmax : ∀ c ∈ cs, c.Created ≤ ((sortSort cs).getLast hne).Created := by
    intro c hc
    have hp := hsort.2
    rw [← hsplit] at hp
    apply created_le_last _ _ hp
    rw [hsplit]
    exact hsort.1.mem_iff.mpr hc
  have hm_last : m = (sortSort cs).getLast hne := by
    have hcr : m.Created = ((sortSort cs).getLast hne).Created :=
      le_antisymm (hlastmax m hm) (hmax _ hlastmem)
    exact List.inj_on_of_nodup_map hdistinct hm hlastmem hcr
  have hnot : (sortSort cs).getLast hne ∉ (sortSort cs).dropLast := by
    rw [← hsplit] at hnodup
    have := (List.nodup_append.mp hnodup).2.2
    intro hin
    exact this hin (List.mem_singleton_self _)
  refine ⟨by rw [hm_last]; exact hnot, ?_⟩
  intro c hc hcm
  have hcs : c ∈ sortSort cs := hsort.1.mem_iff.mpr hc
  rw [← hsplit] at hcs
  rcases List.mem_append.mp hcs with h | h
  · exact h
  · exact absurd ((List.mem_singleton.mp h).trans hm_last.symm) hcm

/-- C7 (as amended): with more than one container listed, the container `CheckPrereqs`
leaves running is one of greatest creation time, every other listed container is
stopped once, and the stops go in non-decreasing order of creation time; which of
several containers of equal creation time comes first is left to `sort.Sort`. -/
theorem CheckPrereqs_survivor {σ : Type} (sortSort : List Container → List Container)
    (client : Client σ) (tag : String) (cleanup : Bool) (s s1 : σ) (cs : List Container)
    (hlist : client.ListContainers (BuildWatchtowerContainersFilter tag) s = (Except.ok cs, s1))
    (hsort : SortsByCreated sortSort cs) (hlen : 1 < cs.length) :
    ∃ survivor,
      (stopped (CheckPrereqs sortSort client.recording tag cleanup (s, [])).2.2 ++ [survivor]).Perm cs ∧
      (∀ c ∈ cs, c.Created ≤ survivor.Created) ∧
      (stopped (CheckPrereqs sortSort client.recording tag cleanup (s, [])).2.2).Pairwise
        (fun a b => a.Created ≤ b.Created) := by
  have hc := (calls_of_listing sortSort client tag cleanup s s1 cs hlist hsort)
  obtain ⟨survivor, h1, h2⟩ := hc.2.2.2.2.1 hlen
  refine ⟨survivor, h1, h2, ?_⟩
  rw [hc.2.1]
  have hp : (sortSort cs).Pairwise (fun a b => a.Created ≤ b.Created) := by
    refine hsort.2.imp ?_
    intro a b h
    simpa [ByCreated.Less] using h
  exact hp.sublist (List.dropLast_sublist _)

/-- After the loop of `CheckPrereqs` over `l`, when each stop succeeds, the runtime
has lost exactly the containers of `l`. -/
theorem foldl_body_runtime (listErr : Option String) (stopFails removeFails : Container → Bool)
    (cleanup : Bool) (l : List Container) :
    ∀ running : List Container, (∀ c ∈ l, stopFails c = false) →
      l.foldl (CheckPrereqs.body (runtimeClient listErr stopFails removeFails) cleanup) running =
        running.filter (fun d => decide (d ∉ l)) := by
  induction l with
  | nil => intro running _; simp
  | cons c l ih =>
    intro running h
    have hc : stopFails c = false := h c (List.mem_cons_self _ _)
    have hbody : CheckPrereqs.body (runtimeClient listErr stopFails removeFails) cleanup running c =
        running.filter (fun d => decide (d ≠ c)) := by
      unfold CheckPrereqs.body runtimeClient
      cases cleanup <;> simp [hc]
      split <;> rfl
    rw [List.foldl_cons, hbody, ih _ (fun d hd => h d (List.mem_cons_of_mem _ hd)), List.filter_filter]
    congr 1
    funext d
    simp [List.mem_cons, not_or, Bool.and_comm]

theorem length_le_one_of_all_eq (l : List Container) (x : Container) (hn : l.Nodup)
    (h : ∀ c ∈ l, c = x) : l.length ≤ 1 := by
  match l, hn, h with
  | [], _, _ => simp
  | [_], _, _ => simp
  | a :: b :: _, hn, h =>
    have ha : a = x := h a (by simp)
    have hb : b = x := h b (by simp)
    rw [ha, hb] at hn
    simp at hn

/-- What the loop of `CheckPrereqs` does achieve: when it returns without error and each
`StopContainer` call it makes (one for every container of the sorted slice but the last)
does stop its container, at most one container accepted by
`BuildWatchtowerContainersFilter(tag)` is still running. The guarantee can only be lost
through a stop that fails and whose error is dropped. -/
theorem at_most_one_of_stops (sortSort : List Container → List Container)
    (listErr : Option String) (stopFails removeFails : Container → Bool)
    (tag : String) (cleanup : Bool) (running : List Container)
    (hset : running.Nodup)
    (hstop : ∀ c ∈ (sortSort (running.filter
        (fun c => BuildWatchtowerContainersFilter tag c.toFilterableContainer))).take
          ((running.filter
            (fun c => BuildWatchtowerContainersFilter tag c.toFilterableContainer)).length - 1),
      stopFails c = false)
    (hsort : (sortSort (running.filter
      (fun c => BuildWatchtowerContainersFilter tag c.toFilterableContainer))).Perm
        (running.filter (fun c => BuildWatchtowerContainersFilter tag c.toFilterableContainer)))
    (hok : (CheckPrereqs sortSort (runtimeClient listErr stopFails removeFails)
      tag cleanup running).1 = none) :
    runningInstances tag (CheckPrereqs sortSort (runtimeClient listErr stopFails removeFails)
      tag cleanup running).2 ≤ 1 := by
  cases listErr with
  | some err => simp [CheckPrereqs, runtimeClient] at hok
  | none =>
    clear hok
    unfold CheckPrereqs
    simp only [runtimeClient]
    set cs := running.filter
      (fun c => BuildWatchtowerContainersFilter tag c.toFilterableContainer) with hcs
    have hcsn : cs.Nodup := hset.filter _
    by_cases hlen : cs.length > 1
    · simp only [hlen, if_true]
      have := foldl_body_runtime none stopFails removeFails cleanup
        ((sortSort cs).take (cs.length - 1)) running hstop
      simp only [runtimeClient] at this
      rw [this]
      unfold runningInstances
      rw [List.filter_filter]
      have hne : sortSort cs ≠ [] := by
        intro h
        have := hsort.length_eq
        rw [h] at this
        simp at this
        omega
      apply length_le_one_of_all_eq _ ((sortSort cs).getLast hne) (hset.filter _)
      intro c hc
      simp only [List.mem_filter, Bool.and_eq_true, decide_eq_true_eq] at hc
      have hmem : c ∈ sortSort cs := hsort.mem_iff.mpr (by
        rw [hcs]; exact List.mem_filter.mpr ⟨hc.1, hc.2.1⟩)
      rw [take_eq_dropLast sortSort cs hsort] at hc
      rw [← List.dropLast_append_getLast hne] at hmem
      rcases List.mem_append.mp hmem with h | h
      · exact absurd h hc.2.2
      · exact List.mem_singleton.mp h
    · simp only [hlen, if_false]
      unfold runningInstances
      rw [← hcs]
      omega

/-- Witness for C3: three instances tagged "prod" created at 10:05, 10:00 and 10:10
(in minutes of the day), with cleanup on. -/
theorem CheckPrereqs_calls_witness :
    (CheckPrereqs shortSort (runtimeClient none (fun _ => false) (fun _ => false)).recording
        "prod" true
        ([mkWatchtower "w2" "prod" 605, mkWatchtower "w1" "prod" 600,
          mkWatchtower "w3" "prod" 610], [])).2.2 =
      [Call.ListContainers,
        Call.StopContainer (mkWatchtower "w1" "prod" 600) 60,
        Call.RemoveImage (mkWatchtower "w1" "prod" 600),
        Call.StopContainer (mkWatchtower "w2" "prod" 605) 60,
        Call.RemoveImage (mkWatchtower "w2" "prod" 605)] :=
  (CheckPrereqs_calls shortSort (runtimeClient none (fun _ => false) (fun _ => false))
    "prod" true
    [mkWatchtower "w2" "prod" 605, mkWatchtower "w1" "prod" 600, mkWatchtower "w3" "prod" 610]
    [mkWatchtower "w2" "prod" 605, mkWatchtower "w1" "prod" 600, mkWatchtower "w3" "prod" 610]
    [mkWatchtower "w2" "prod" 605, mkWatchtower "w1" "prod" 600, mkWatchtower "w3" "prod" 610]
    rfl (by decide)).1.trans (by decide)

/-- Witness for C4: creation times t1 < t2 < t3 listed as (t2, t1, t3) and as
(t3, t2, t1) give the same calls. -/
theorem CheckPrereqs_permutation_witness :
    (CheckPrereqs shortSort (runtimeClient none (fun _ => false) (fun _ => false)).recording
        "prod" false
        ([mkWatchtower "w3" "prod" 610, mkWatchtower "w2" "prod" 605,
          mkWatchtower "w1" "prod" 600], [])).2.2 =
      (CheckPrereqs shortSort (runtimeClient none (fun _ => true) (fun _ => true)).recording
        "prod" false
        ([mkWatchtower "w2" "prod" 605, mkWatchtower "w1" "prod" 600,
          mkWatchtower "w3" "prod" 610], [])).2.2 :=
  (CheckPrereqs_permutation shortSort
    (runtimeClient none (fun _ => true) (fun _ => true))
    (runtimeClient none (fun _ => false) (fun _ => false))
    "prod" false
    [mkWatchtower "w2" "prod" 605, mkWatchtower "w1" "prod" 600, mkWatchtower "w3" "prod" 610]
    [mkWatchtower "w2" "prod" 605, mkWatchtower "w1" "prod" 600, mkWatchtower "w3" "prod" 610]
    [mkWatchtower "w3" "prod" 610, mkWatchtower "w2" "prod" 605, mkWatchtower "w1" "prod" 600]
    [mkWatchtower "w3" "prod" 610, mkWatchtower "w2" "prod" 605, mkWatchtower "w1" "prod" 600]
    [mkWatchtower "w2" "prod" 605, mkWatchtower "w1" "prod" 600, mkWatchtower "w3" "prod" 610]
    [mkWatchtower "w3" "prod" 610, mkWatchtower "w2" "prod" 605, mkWatchtower "w1" "prod" 600]
    rfl rfl (by decide) (by decide) (by decide) (by decide)).1

/-- C6: the postcondition fails on the code. Two instances tagged "prod", created at
600 and 605, are running and `StopContainer` fails on the older one. `CheckPrereqs` makes
that one stop call, drops its error and returns nil, and both instances still run, though
its own comment says it "will ensure that there are not multiple instances of the
watchtower running simultaneously". -/
theorem CheckPrereqs_leaves_duplicates :
    (CheckPrereqs shortSort
      (runtimeClient none (fun c => decide (c.Name = "old")) (fun _ => false)) "prod" false
      [mkWatchtower "old" "prod" 600, mkWatchtower "new" "prod" 605]).1 = none ∧
    (CheckPrereqs shortSort
      (runtimeClient none (fun c => decide (c.Name = "old")) (fun _ => false)).recording
      "prod" false
      ([mkWatchtower "old" "prod" 600, mkWatchtower "new" "prod" 605], [])).2.2 =
      [Call.ListContainers, Call.StopContainer (mkWatchtower "old" "prod" 600) 60] ∧
    runningInstances "prod"
      (CheckPrereqs shortSort
        (runtimeClient none (fun c => decide (c.Name = "old")) (fun _ => false)) "prod" false
        [mkWatchtower "old" "prod" 600, mkWatchtower "new" "prod" 605]).2 = 2 := by
  decide

/-- An instance of `at_most_one_of_stops`: two instances tagged "prod" and a container
of another tag; the client would fail to stop the newest instance, which is never
stopped, and stops the other. -/
theorem at_most_one_of_stops_example :
    runningInstances "prod"
      (CheckPrereqs shortSort
        (runtimeClient none (fun c => decide (c.Name = "new")) (fun _ => false)) "prod" true
        [mkWatchtower "new" "prod" 605, mkWatchtower "other" "test" 601,
          mkWatchtower "old" "prod" 600]).2 ≤ 1 :=
  at_most_one_of_stops shortSort none (fun c => decide (c.Name = "new")) (fun _ => false)
    "prod" true
    [mkWatchtower "new" "prod" 605, mkWatchtower "other" "test" 601, mkWatchtower "old" "prod" 600]
    (by decide) (by decide) (by decide) (by decide)

/-- Counterexample for C7: seven instances, "a" and "b" created at time 5 and "c" to
"g" at time 1, listed in that order. The sort the library runs on a slice this short
(gap-6 ShellSort pass, then insertion sort) returns a sorted arrangement in which "g"
comes before "c" and "a" after "b": "b", the last of the newest in input order, is
stopped and "a" is left running. -/
theorem CheckPrereqs_not_stable :
    SortsByCreated shortSort
      [mkWatchtower "a" "prod" 5, mkWatchtower "b" "prod" 5, mkWatchtower "c" "prod" 1,
        mkWatchtower "d" "prod" 1, mkWatchtower "e" "prod" 1, mkWatchtower "f" "prod" 1,
        mkWatchtower "g" "prod" 1] ∧
    newestLast
      [mkWatchtower "a" "prod" 5, mkWatchtower "b" "prod" 5, mkWatchtower "c" "prod" 1,
        mkWatchtower "d" "prod" 1, mkWatchtower "e" "prod" 1, mkWatchtower "f" "prod" 1,
        mkWatchtower "g" "prod" 1] = some (mkWatchtower "b" "prod" 5) ∧
    stopped (CheckPrereqs shortSort
      (runtimeClient none (fun _ => false) (fun _ => false)).recording "prod" false
      ([mkWatchtower "a" "prod" 5, mkWatchtower "b" "prod" 5, mkWatchtower "c" "prod" 1,
        mkWatchtower "d" "prod" 1, mkWatchtower "e" "prod" 1, mkWatchtower "f" "prod" 1,
        mkWatchtower "g" "prod" 1], [])).2.2 =
      [mkWatchtower "g" "prod" 1, mkWatchtower "c" "prod" 1, mkWatchtower "d" "prod" 1,
        mkWatchtower "e" "prod" 1, mkWatchtower "f" "prod" 1, mkWatchtower "b" "prod" 5] ∧
    (CheckPrereqs shortSort
      (runtimeClient none (fun _ => false) (fun _ => false)).recording "prod" false
      ([mkWatchtower "a" "prod" 5, mkWatchtower "b" "prod" 5, mkWatchtower "c" "prod" 1,
        mkWatchtower "d" "prod" 1, mkWatchtower "e" "prod" 1, mkWatchtower "f" "prod" 1,
        mkWatchtower "g" "prod" 1], [])).2.1 = [mkWatchtower "a" "prod" 5] := by
  decide

/-- Witness for C7 (as amended): the seven instances of the counterexample. -/
theorem CheckPrereqs_survivor_witness :
    ∃ survivor,
      (stopped (CheckPrereqs shortSort
        (runtimeClient none (fun _ => false) (fun _ => false)).recording "prod" false
        ([mkWatchtower "a" "prod" 5, mkWatchtower "b" "prod" 5, mkWatchtower "c" "prod" 1,
          mkWatchtower "d" "prod" 1, mkWatchtower "e" "prod" 1, mkWatchtower "f" "prod" 1,
          mkWatchtower "g" "prod" 1], [])).2.2 ++ [survivor]).Perm
        [mkWatchtower "a" "prod" 5, mkWatchtower "b" "prod" 5, mkWatchtower "c" "prod" 1,
          mkWatchtower "d" "prod" 1, mkWatchtower "e" "prod" 1, mkWatchtower "f" "prod" 1,
          mkWatchtower "g" "prod" 1] ∧
      (∀ c ∈ [mkWatchtower "a" "prod" 5, mkWatchtower "b" "prod" 5, mkWatchtower "c" "prod" 1,
          mkWatchtower "d" "prod" 1, mkWatchtower "e" "prod" 1, mkWatchtower "f" "prod" 1,
          mkWatchtower "g" "prod" 1], c.Created ≤ survivor.Created) ∧
      (stopped (CheckPrereqs shortSort
        (runtimeClient none (fun _ => false) (fun _ => false)).recording "prod" false
        ([mkWatchtower "a" "prod" 5, mkWatchtower "b" "prod" 5, mkWatchtower "c" "prod" 1,
          mkWatchtower "d" "prod" 1, mkWatchtower "e" "prod" 1, mkWatchtower "f" "prod" 1,
          mkWatchtower "g" "prod" 1], [])).2.2).Pairwise (fun a b => a.Created ≤ b.Created) :=
  CheckPrereqs_survivor shortSort (runtimeClient none (fun _ => false) (fun _ => false))
    "prod" false _ _ _ rfl (by decide) (by decide)

/-! ## Theorems: main.go, before -/

theorem length_eq_zero_iff (t : String) : t.length = 0 ↔ t = "" := by
  constructor
  · intro h
    have hd : t.data = [] := List.length_eq_zero.mp h
    exact String.ext hd
  · intro h
    rw [h]
    rfl

/-- C8: the resolution in `before` is fatal exactly when both the interval and the
schedule are set, or the stop timeout is negative, or the tag is empty; otherwise the
schedule specification is the schedule option verbatim when it is set and "@every ",
the decimal interval and "s" when it is not, which is "@every 300s" for the default
interval; a stop timeout of 0 is accepted. -/
theorem before_fatal_iff (c : Context) :
    ((∃ msg, before c = Except.error msg) ↔
      (c.IsSetInterval = true ∧ c.IsSetSchedule = true) ∨
        c.GlobalDurationStopTimeout < 0 ∨ c.StringTag = "") ∧
    (match before c with
      | .error _ => True
      | .ok settings =>
        settings.scheduleSpec =
          (match c.schedule with
            | some spec => spec
            | none => "@every " ++ Itoa (c.interval.getD 300) ++ "s")) ∧
    (∀ (cleanup noRestart : Bool) (tag : String) (timeout : Int),
      (before { interval := none, schedule := none, cleanup := cleanup, noRestart := noRestart,
                stopTimeout := some timeout, tag := some tag }).toOption.map
          (fun settings => settings.scheduleSpec) =
        if timeout < 0 ∨ tag = "" then none else some "@every 300s") ∧
    (∀ (tag : String),
      (before { interval := none, schedule := none, cleanup := false, noRestart := false,
                stopTimeout := some 0, tag := some tag }).toOption.isSome = decide (tag ≠ "")) := by
  refine ⟨?_, ?_, ?_, ?_⟩
  · unfold before
    simp only []
    by_cases h1 : (c.IsSetInterval && c.IsSetSchedule) = true
    · simp only [h1, if_true]
      simp only [Bool.and_eq_true] at h1
      simp [h1]
    · simp only [h1]
      simp only [Bool.and_eq_true] at h1
      by_cases h2 : c.GlobalDurationStopTimeout < 0
      · simp [h2]
      · by_cases h3 : c.StringTag.length = 0
        · have := (length_eq_zero_iff _).mp h3
          simp [h2, h3, this]
        · have : ¬ c.StringTag = "" := fun h => h3 ((length_eq_zero_iff _).mpr h)
          simp [h1, h2, h3, this]
  · unfold before
    simp only []
    split
    · trivial
    · rename_i settings heq
      split at heq
      · cases heq
      · split at heq
        · cases heq
        · split at heq
          · cases heq
          · injection heq with heq
            subst heq
            obtain ⟨interval, schedule, cleanup, noRestart, stopTimeout, tag⟩ := c
            cases schedule <;>
              simp [Context.IsSetSchedule, Context.StringSchedule, Context.IntInterval]
  · intro cleanup noRestart tag timeout
    simp only [before, Context.IsSetInterval, Context.IsSetSchedule, Context.StringSchedule,
      Context.IntInterval, Context.GlobalDurationStopTimeout, Context.StringTag]
    by_cases h2 : timeout < 0
    · simp [h2, Except.toOption]
    · by_cases h3 : tag.length = 0
      · have := (length_eq_zero_iff _).mp h3
        simp [h2, h3, this, Except.toOption]
      · have : ¬ tag = "" := fun h => h3 ((length_eq_zero_iff _).mpr h)
        have hitoa : "@every " ++ Itoa 300 ++ "s" = "@every 300s" := by decide
        simp [h2, h3, this, Except.toOption, hitoa]
  · intro tag
    simp only [before, Context.IsSetInterval, Context.IsSetSchedule, Context.StringSchedule,
      Context.IntInterval, Context.GlobalDurationStopTimeout, Context.StringTag]
    by_cases h3 : tag.length = 0
    · have := (length_eq_zero_iff _).mp h3
      simp [h3, this, Except.toOption]
    · have : ¬ tag = "" := fun h => h3 ((length_eq_zero_iff _).mpr h)
      simp [h3, this, Except.toOption]

/-! ## Theorems: main.go, start -/

theorem countP_set {α : Type} (p : α → Bool) (l : List α) (i : Nat) (a b : α)
    (h : l[i]? = some a) :
    (l.set i b).countP p + (if p a then 1 else 0) = l.countP p + (if p b then 1 else 0) := by
  induction l generalizing i with
  | nil => simp at h
  | cons x l ih =>
    cases i with
    | zero =>
      simp at h
      subst h
      simp only [List.set_cons_zero, List.countP_cons]
      omega
    | succ i =>
      simp at h
      have := ih i h
      simp only [List.set_cons_succ, List.countP_cons]
      omega

theorem step_sound (s s' : State) (l : Label) (h : step s l = some s') : Step s s' := by
  unfold step at h
  split at h
  · cases h
  · rename_i hm
    cases l with
    | trigger =>
      simp only at h
      split at h
      · rename_i hc
        injection h with h
        subst h
        exact Step.trigger s hm hc
      · cases h
    | job i e =>
      simp only [stepJob] at h
      split at h
      · cases h
      · rename_i hj
        split at h
        · rename_i v rest hs
          injection h with h
          subst h
          exact Step.acquire s i v rest hm hj hs
        · rename_i hs
          injection h with h
          subst h
          exact Step.skip s i hm hj hs
      · rename_i v hj
        injection h with h
        subst h
        exact Step.startNotification s i v hm hj
      · rename_i v hj
        injection h with h
        subst h
        exact Step.update s i v e hm hj
      · rename_i v err hj
        injection h with h
        subst h
        exact Step.sendNotification s i v err hm hj
      · rename_i v err hj
        injection h with h
        subst h
        exact Step.nextRunsHeld s i v err hm hj
      · rename_i hj
        injection h with h
        subst h
        exact Step.nextRunsSkipped s i hm hj
      · rename_i v err hj
        split at h
        · rename_i hs
          injection h with h
          subst h
          exact Step.release s i v err hm hj hs
        · cases h
      · cases h
    | main =>
      simp only [stepMain] at h
      split at h
      · rename_i hmain
        injection h with h
        subst h
        exact Step.interrupt s hmain
      · rename_i hmain
        injection h with h
        subst h
        exact Step.cronStop s hmain
      · rename_i hmain
        split at h
        · rename_i v rest hs
          injection h with h
          subst h
          exact Step.shutdownAcquire s v rest hmain hs
        · cases h
      · rename_i hmain
        injection h with h
        subst h
        exact Step.exit s hmain
      · cases h


theorem eventsOf_snoc_job (k i : Nat) (log : List Event) (e : JobEvent) :
    eventsOf k (log ++ [Event.job i e]) = eventsOf k log ++ (if i = k then [e] else []) := by
  unfold eventsOf
  rw [List.filterMap_append]
  by_cases h : i = k <;> simp [h]

theorem eventsOf_snoc_other (k : Nat) (log : List Event) (e : Event)
    (h : ∀ i je, e ≠ Event.job i je) : eventsOf k (log ++ [e]) = eventsOf k log := by
  unfold eventsOf
  rw [List.filterMap_append]
  cases e with
  | job i je => exact absurd rfl (h i je)
  | _ => simp

theorem mem_eventsOf (i : Nat) (log : List Event) (e : JobEvent) :
    e ∈ eventsOf i log ↔ Event.job i e ∈ log := by
  unfold eventsOf
  rw [List.mem_filterMap]
  constructor
  · rintro ⟨ev, hev, h⟩
    cases ev with
    | job j je =>
      by_cases hji : j = i
      · simp [hji] at h
        subst h; subst hji
        exact hev
      · simp [hji] at h
    | _ => simp at h
  · intro h
    exact ⟨_, h, by simp⟩

theorem gateOf_snoc (log : List Event) (e : Event) :
    gateOf (log ++ [e]) = gateAfter (gateOf log) e := by
  simp [gateOf, List.foldl_append]

theorem mainEvents_snoc (log : List Event) (e : Event) :
    mainEvents (log ++ [e]) = mainEvents log ++ mainEvents [e] := by
  simp [mainEvents, List.filter_append]

/-- The trails after run number `i` moves from `pc` to `pc'` with the event `e`. -/
theorem trails_event (jobs : List JobPC) (log : List Event) (i : Nat) (pc pc' : JobPC)
    (e : JobEvent) (hj : jobs[i]? = some pc)
    (htr : ∀ k, eventsOf k log = ((jobs[k]?).map JobPC.trail).getD [])
    (hpc : pc'.trail = pc.trail ++ [e]) :
    ∀ k, eventsOf k (log ++ [Event.job i e]) =
      (((jobs.set i pc')[k]?).map JobPC.trail).getD [] := by
  intro k
  have hlt : i < jobs.length := by
    rcases Nat.lt_or_ge i jobs.length with h | h
    · exact h
    · rw [List.getElem?_eq_none h] at hj; cases hj
  rw [eventsOf_snoc_job, htr k, List.getElem?_set]
  by_cases hik : i = k
  · subst hik
    simp [hlt, hj, hpc]
  · simp [hik]

/-- The trails after run number `i` moves from `pc` to `pc'` without an event. -/
theorem trails_silent (jobs : List JobPC) (log : List Event) (i : Nat) (pc pc' : JobPC)
    (hj : jobs[i]? = some pc)
    (htr : ∀ k, eventsOf k log = ((jobs[k]?).map JobPC.trail).getD [])
    (hpc : pc'.trail = pc.trail) :
    ∀ k, eventsOf k log = (((jobs.set i pc')[k]?).map JobPC.trail).getD [] := by
  intro k
  have hlt : i < jobs.length := by
    rcases Nat.lt_or_ge i jobs.length with h | h
    · exact h
    · rw [List.getElem?_eq_none h] at hj; cases hj
  rw [htr k, List.getElem?_set]
  by_cases hik : i = k
  · subst hik
    simp [hlt, hj, hpc]
  · simp [hik]

theorem cycles_set (jobs : List JobPC) (i : Nat) (pc pc' : JobPC) (hj : jobs[i]? = some pc) :
    (jobs.set i pc').countP JobPC.inCycle + (if pc.inCycle then 1 else 0) =
      jobs.countP JobPC.inCycle + (if pc'.inCycle then 1 else 0) :=
  countP_set JobPC.inCycle jobs i pc pc' hj

theorem inv_initial : Inv State.initial := by
  refine ⟨by decide, by decide, ?_, by decide, by decide, ?_⟩
  · intro i
    simp [State.initial, eventsOf]
  · intro h
    simp [State.initial] at h

theorem acquired_released (s : State) (hm : s.main = MainPC.exit)
    (hp : s.tryLockSem.length + s.cycles + (if s.main.holdsPermit then 1 else 0) = 1)
    (ht : ∀ i, eventsOf i s.log = ((s.jobs[i]?).map JobPC.trail).getD []) :
    ∀ i, Event.job i JobEvent.acquire ∈ s.log → Event.job i JobEvent.release ∈ s.log := by
  intro i hacq
  rw [← mem_eventsOf] at hacq ⊢
  rw [ht i] at hacq ⊢
  have hzero : ∀ a ∈ s.jobs, ¬ a.inCycle = true := by
    have : s.jobs.countP JobPC.inCycle = 0 := by
      rw [hm] at hp
      simp only [MainPC.holdsPermit, State.cycles, if_true] at hp
      omega
    exact List.countP_eq_zero.mp this
  cases hj : s.jobs[i]? with
  | none => simp [hj] at hacq
  | some pc =>
    have hmem : pc ∈ s.jobs := List.getElem?_mem hj
    have hnot := hzero pc hmem
    rw [hj] at hacq
    cases pc with
    | select => simp [JobPC.trail] at hacq
    | startNotification v => simp [JobPC.inCycle] at hnot
    | update v => simp [JobPC.inCycle] at hnot
    | sendNotification v err => simp [JobPC.inCycle] at hnot
    | nextRuns held =>
      cases held with
      | none => simp [JobPC.trail] at hacq
      | some p => simp [JobPC.inCycle] at hnot
    | release v err => simp [JobPC.inCycle] at hnot
    | returned ran =>
      cases ran with
      | none => simp [JobPC.trail] at hacq
      | some err => simp [JobPC.trail]

theorem inv_Step (s s' : State) (hinv : Inv s) (h : Step s s') : Inv s' := by
  obtain ⟨hp, hc, ht, hg, hm, he⟩ := hinv
  have hp0 := hp
  unfold State.cycles at hp
  cases h with
  | trigger hmain hcron =>
    refine ⟨?_, ?_, ?_, ?_, ?_, ?_⟩
    · simpa [State.cycles, JobPC.inCycle] using hp
    · intro _; exact hc hcron
    · intro k
      simp only []
      rw [eventsOf_snoc_other k _ _ (by intro i je h; cases h), ht k, List.getElem?_append]
      by_cases hk : k < s.jobs.length
      · simp [hk]
      · rw [List.getElem?_eq_none (by omega)]
        by_cases hk2 : k - s.jobs.length = 0
        · simp [hk, hk2, JobPC.trail]
        · have : ([JobPC.select] : List JobPC)[k - s.jobs.length]? = none := by
            apply List.getElem?_eq_none; simp; omega
          simp [hk, this]
    · simpa [gateOf_snoc, gateAfter] using hg
    · simpa [mainEvents_snoc, mainEvents] using hm
    · intro h; exact absurd h hmain
  | acquire i v rest hmain hj hs =>
    refine ⟨?_, hc, ?_, ?_, ?_, fun h => absurd h hmain⟩
    · have := cycles_set s.jobs i _ (JobPC.startNotification v) hj
      simp only [State.cycles]
      simp only [JobPC.inCycle] at this
      simp [hs] at this hp ⊢
      omega
    · exact trails_event s.jobs s.log i _ _ _ hj ht rfl
    · have hrest : rest = [] := by
        simp [hs] at hp
        have : rest.length = 0 := by omega
        exact List.length_eq_zero.mp this
      simp [gateOf_snoc, gateAfter, hg, hs, hrest]
    · simpa [mainEvents_snoc, mainEvents] using hm
  | skip i hmain hj hs =>
    refine ⟨?_, hc, ?_, ?_, ?_, fun h => absurd h hmain⟩
    · have := cycles_set s.jobs i _ (JobPC.nextRuns none) hj
      simp only [State.cycles]
      simp only [JobPC.inCycle] at this
      simp at this hp ⊢
      omega
    · exact trails_event s.jobs s.log i _ _ _ hj ht rfl
    · simpa [gateOf_snoc, gateAfter] using hg
    · simpa [mainEvents_snoc, mainEvents] using hm
  | startNotification i v hmain hj =>
    refine ⟨?_, hc, ?_, ?_, ?_, fun h => absurd h hmain⟩
    · have := cycles_set s.jobs i _ (JobPC.update v) hj
      simp only [State.cycles]
      simp only [JobPC.inCycle] at this
      simp at this hp ⊢
      omega
    · exact trails_event s.jobs s.log i _ _ _ hj ht rfl
    · simpa [gateOf_snoc, gateAfter] using hg
    · simpa [mainEvents_snoc, mainEvents] using hm
  | update i v err hmain hj =>
    refine ⟨?_, hc, ?_, ?_, ?_, fun h => absurd h hmain⟩
    · have := cycles_set s.jobs i _ (JobPC.sendNotification v err) hj
      simp only [State.cycles]
      simp only [JobPC.inCycle] at this
      simp at this hp ⊢
      omega
    · exact trails_event s.jobs s.log i _ _ _ hj ht rfl
    · simpa [gateOf_snoc, gateAfter] using hg
    · simpa [mainEvents_snoc, mainEvents] using hm
  | sendNotification i v err hmain hj =>
    refine ⟨?_, hc, ?_, ?_, ?_, fun h => absurd h hmain⟩
    · have := cycles_set s.jobs i _ (JobPC.nextRuns (some (v, err))) hj
      simp only [State.cycles]
      simp only [JobPC.inCycle] at this
      simp at this hp ⊢
      omega
    · exact trails_event s.jobs s.log i _ _ _ hj ht rfl
    · simpa [gateOf_snoc, gateAfter] using hg
    · simpa [mainEvents_snoc, mainEvents] using hm
  | nextRunsHeld i v err hmain hj =>
    refine ⟨?_, hc, ?_, ?_, ?_, fun h => absurd h hmain⟩
    · have := cycles_set s.jobs i _ (JobPC.release v err) hj
      simp only [State.cycles]
      simp only [JobPC.inCycle] at this
      simp at this hp ⊢
      omega
    · exact trails_silent s.jobs s.log i _ _ hj ht rfl
    · exact hg
    · exact hm
  | nextRunsSkipped i hmain hj =>
    refine ⟨?_, hc, ?_, ?_, ?_, fun h => absurd h hmain⟩
    · have := cycles_set s.jobs i _ (JobPC.returned none) hj
      simp only [State.cycles]
      simp only [JobPC.inCycle] at this
      simp at this hp ⊢
      omega
    · exact trails_silent s.jobs s.log i _ _ hj ht rfl
    · exact hg
    · exact hm
  | release i v err hmain hj hs =>
    have hnil : s.tryLockSem = [] := List.length_eq_zero.mp (by omega)
    refine ⟨?_, hc, ?_, ?_, ?_, fun h => absurd h hmain⟩
    · have := cycles_set s.jobs i _ (JobPC.returned (some err)) hj
      simp only [State.cycles]
      simp only [JobPC.inCycle] at this
      simp [hnil] at this hp ⊢
      omega
    · exact trails_event s.jobs s.log i _ _ _ hj ht rfl
    · simp [gateOf_snoc, gateAfter, hg, hnil]
    · simpa [mainEvents_snoc, mainEvents] using hm
  | interrupt hmain =>
    refine ⟨?_, ?_, ?_, ?_, ?_, ?_⟩
    · simpa [State.cycles, hmain, MainPC.holdsPermit] using hp
    · intro _; exact Or.inr rfl
    · intro k
      rw [eventsOf_snoc_other k _ _ (by intro i je h; cases h)]
      exact ht k
    · simpa [gateOf_snoc, gateAfter] using hg
    · show mainEvents (s.log ++ [_]) = _
      rw [mainEvents_snoc, hm, hmain]
      rfl
    · intro h; cases h
  | cronStop hmain =>
    refine ⟨?_, ?_, ?_, ?_, ?_, ?_⟩
    · simpa [State.cycles, hmain, MainPC.holdsPermit] using hp
    · intro h; cases h
    · intro k
      rw [eventsOf_snoc_other k _ _ (by intro i je h; cases h)]
      exact ht k
    · simpa [gateOf_snoc, gateAfter] using hg
    · show mainEvents (s.log ++ [_]) = _
      rw [mainEvents_snoc, hm, hmain]
      rfl
    · intro h; cases h
  | shutdownAcquire v rest hmain hs =>
    have hrest : rest = [] := by
      simp [hs] at hp
      have : rest.length = 0 := by omega
      exact List.length_eq_zero.mp this
    refine ⟨?_, ?_, ?_, ?_, ?_, ?_⟩
    · subst hrest
      rw [hmain, hs] at hp
      simp only [MainPC.holdsPermit] at hp
      simp only [State.cycles, MainPC.holdsPermit]
      simp only [List.length_cons, List.length_nil, if_true] at hp ⊢
      simp only [Bool.false_eq_true, if_false] at hp
      omega
    · intro h
      rcases hc h with h' | h' <;> rw [hmain] at h' <;> cases h'
    · intro k
      rw [eventsOf_snoc_other k _ _ (by intro i je h; cases h)]
      exact ht k
    · simp [gateOf_snoc, gateAfter, hg, hs, hrest]
    · show mainEvents (s.log ++ [_]) = _
      rw [mainEvents_snoc, hm, hmain]
      rfl
    · intro h; cases h
  | exit hmain =>
    refine ⟨?_, ?_, ?_, ?_, ?_, ?_⟩
    · simpa [State.cycles, hmain, MainPC.holdsPermit] using hp
    · intro h
      rcases hc h with h' | h' <;> rw [hmain] at h' <;> cases h'
    · intro k
      rw [eventsOf_snoc_other k _ _ (by intro i je h; cases h)]
      exact ht k
    · simpa [gateOf_snoc, gateAfter] using hg
    · show mainEvents (s.log ++ [_]) = _
      rw [mainEvents_snoc, hm, hmain]
      rfl
    · intro _
      exact ⟨s.log, rfl, acquired_released s hmain hp0 ht⟩

theorem inv_run (ls : List Label) : ∀ s s' : State, Inv s → run s ls = some s' → Inv s' := by
  induction ls with
  | nil =>
    intro s s' hinv h
    simp [run] at h
    subst h
    exact hinv
  | cons l ls ih =>
    intro s s' hinv h
    simp only [run] at h
    split at h
    · cases h
    · rename_i s1 hs1
      exact ih s1 s' (inv_Step s s1 hinv (step_sound s s1 l hs1)) h


theorem getElem?_set_same (jobs : List JobPC) (i : Nat) (pc pc' : JobPC) (hj : jobs[i]? = some pc) :
    (jobs.set i pc')[i]? = some pc' := by
  have hlt : i < jobs.length := by
    rcases Nat.lt_or_ge i jobs.length with h | h
    · exact h
    · rw [List.getElem?_eq_none h] at hj; cases hj
  rw [List.getElem?_set]
  simp [hlt]

/-- A run of the scheduled function that finds the permit in the channel goes through
the whole cycle in six steps of its own and puts the permit back. -/
theorem run_cycle (s : State) (i : Nat) (v err : Bool) (hm : s.main ≠ MainPC.exited)
    (hj : s.jobs[i]? = some JobPC.select) (hs : s.tryLockSem = [v]) :
    run s (List.replicate 6 (Label.job i err)) =
      some { s with jobs := s.jobs.set i (JobPC.returned (some err)),
                    log := s.log ++ [Event.job i JobEvent.acquire,
                      Event.job i JobEvent.StartNotification, Event.job i (JobEvent.Update err),
                      Event.job i JobEvent.SendNotification, Event.job i JobEvent.release] } := by
  obtain ⟨sem, cron, jobs, main, log⟩ := s
  simp only at hm hj hs
  subst hs
  simp [List.replicate, run, step, stepJob, hm, hj, getElem?_set_same jobs i _ _ hj, List.set_set]

/-- A run of the scheduled function that finds the channel empty returns in two steps of
its own, with no event but the skip. -/
theorem run_skip (s : State) (i : Nat) (err : Bool) (hm : s.main ≠ MainPC.exited)
    (hj : s.jobs[i]? = some JobPC.select) (hs : s.tryLockSem = []) :
    run s (List.replicate 2 (Label.job i err)) =
      some { s with jobs := s.jobs.set i (JobPC.returned none),
                    log := s.log ++ [Event.job i JobEvent.skip] } := by
  obtain ⟨sem, cron, jobs, main, log⟩ := s
  simp only at hm hj hs
  subst hs
  simp [List.replicate, run, step, stepJob, hm, hj, getElem?_set_same jobs i _ _ hj, List.set_set]

/-- A run of the scheduled function that is inside its cycle can take its next step. -/
theorem inCycle_enabled (s : State) (hinv : Inv s) (i : Nat) (pc : JobPC) (err : Bool)
    (hj : s.jobs[i]? = some pc) (hc : pc.inCycle = true) :
    (step s (Label.job i err)).isSome = true := by
  have hp := hinv.permit
  have hpos : 0 < s.cycles := by
    unfold State.cycles
    exact List.countP_pos_iff.mpr ⟨pc, List.getElem?_mem hj, hc⟩
  have hm : s.main ≠ MainPC.exited := by
    intro h
    rw [h] at hp
    simp only [MainPC.holdsPermit, if_true] at hp
    omega
  have hsem : s.tryLockSem.length < 1 := by omega
  cases pc with
  | select => simp [JobPC.inCycle] at hc
  | startNotification v => simp [step, stepJob, hm, hj]
  | update v => simp [step, stepJob, hm, hj]
  | sendNotification v e => simp [step, stepJob, hm, hj]
  | nextRuns held =>
    cases held with
    | none => simp [JobPC.inCycle] at hc
    | some p => simp [step, stepJob, hm, hj]
  | release v e => simp [step, stepJob, hm, hj, hsem]
  | returned ran => simp [JobPC.inCycle] at hc

/-- C9: in every reachable state the permit is in exactly one place (the channel, one
run of the scheduled function, or the main goroutine), so at most one update cycle is
executing; acquires and releases of the gate alternate; the events of each run are, in
order, those of its place in the code (acquire, StartNotification, Update, SendNotification,
release; or the skip alone); a run that finds the permit completes the cycle and puts the
permit back whether or not the update fails; a run that finds none skips without
blocking and leaves the gate as it was; a run inside its cycle is never blocked. -/
theorem single_flight (ls : List Label) (s : State) (h : run State.initial ls = some s) :
    s.tryLockSem.length + s.cycles + (if s.main.holdsPermit then 1 else 0) = 1 ∧
    s.cycles ≤ 1 ∧
    gateOf s.log = some s.tryLockSem.isEmpty ∧
    (∀ i pc, s.jobs[i]? = some pc → eventsOf i s.log = pc.trail) ∧
    (∀ i v rest err, s.main ≠ MainPC.exited → s.jobs[i]? = some JobPC.select →
      s.tryLockSem = v :: rest →
      run s (List.replicate 6 (Label.job i err)) =
        some { s with jobs := s.jobs.set i (JobPC.returned (some err)),
                      log := s.log ++ [Event.job i JobEvent.acquire,
                        Event.job i JobEvent.StartNotification, Event.job i (JobEvent.Update err),
                        Event.job i JobEvent.SendNotification, Event.job i JobEvent.release] }) ∧
    (∀ i err, s.main ≠ MainPC.exited → s.jobs[i]? = some JobPC.select → s.tryLockSem = [] →
      run s (List.replicate 2 (Label.job i err)) =
        some { s with jobs := s.jobs.set i (JobPC.returned none),
                      log := s.log ++ [Event.job i JobEvent.skip] }) ∧
    (∀ i pc err, s.jobs[i]? = some pc → pc.inCycle = true →
      (step s (Label.job i err)).isSome = true) := by
  have hinv := inv_run ls State.initial s inv_initial h
  refine ⟨hinv.permit, ?_, hinv.gate, ?_, ?_, ?_, ?_⟩
  · have := hinv.permit
    omega
  · intro i pc hj
    rw [hinv.trails i, hj]
    rfl
  · intro i v rest err hm hj hs
    have hrest : rest = [] := by
      have := hinv.permit
      rw [hs] at this
      simp only [List.length_cons] at this
      exact List.length_eq_zero.mp (by omega)
    subst hrest
    exact run_cycle s i v err hm hj hs
  · intro i err hm hj hs
    exact run_skip s i err hm hj hs
  · intro i pc err hj hc
    exact inCycle_enabled s hinv i pc err hj hc

/-- C10: in every reachable state, the exit step is enabled only when the main goroutine
stands at line 270, and then (as whenever the main goroutine holds the permit) the
scheduler has been stopped, the channel is empty and no run of the scheduled function
is inside its cycle; while a cycle is in progress the receive of line 269 blocks; and
once the process has exited, the exit is the last event of the history and every run
that acquired the permit released it before. -/
theorem shutdown_waits (ls : List Label) (s : State) (h : run State.initial ls = some s) :
    ((∃ s', step s Label.main = some s' ∧ s'.main = MainPC.exited) ↔ s.main = MainPC.exit) ∧
    (s.main.holdsPermit = true →
      s.cronRunning = false ∧ s.tryLockSem = [] ∧ s.cycles = 0 ∧
        step s Label.trigger = none) ∧
    (s.main = MainPC.waitSem → 0 < s.cycles → step s Label.main = none) ∧
    mainEvents s.log = s.main.trail ∧
    (s.main = MainPC.exited →
      (∀ l, step s l = none) ∧
      ∃ pre, s.log = pre ++ [Event.exit] ∧
        ∀ i, Event.job i JobEvent.acquire ∈ pre → Event.job i JobEvent.release ∈ pre) := by
  have hinv := inv_run ls State.initial s inv_initial h
  refine ⟨?_, ?_, ?_, hinv.mainTrail, ?_⟩
  · constructor
    · rintro ⟨s', hstep, hex⟩
      unfold step at hstep
      split at hstep
      · cases hstep
      · simp only [stepMain] at hstep
        split at hstep
        · injection hstep with hstep; subst hstep; cases hex
        · injection hstep with hstep; subst hstep; cases hex
        · split at hstep
          · injection hstep with hstep; subst hstep; cases hex
          · cases hstep
        · assumption
        · cases hstep
    · intro hm
      refine ⟨{ s with main := MainPC.exited, log := s.log ++ [Event.exit] }, ?_, rfl⟩
      simp [step, stepMain, hm]
  · intro hh
    have hp := hinv.permit
    rw [hh] at hp
    simp only [if_true] at hp
    have hcron : s.cronRunning = false := by
      cases hcr : s.cronRunning with
      | false => rfl
      | true =>
        rcases hinv.cronStopped hcr with h' | h' <;> rw [h'] at hh <;> cases hh
    refine ⟨hcron, List.length_eq_zero.mp (by omega), by omega, ?_⟩
    simp [step, hcron]
  · intro hm hpos
    have hp := hinv.permit
    have : s.tryLockSem = [] := List.length_eq_zero.mp (by omega)
    simp [step, stepMain, hm, this]
  · intro hm
    exact ⟨fun l => by simp [step, hm], hinv.exitLast hm⟩

/-- Witness for C9: a second trigger fires while the first run is in its cycle. -/
theorem single_flight_witness :
    run State.initial overlapLabels = some overlapState ∧ overlapState.cycles ≤ 1 ∧
      gateOf overlapState.log = some true :=
  ⟨by decide, (single_flight overlapLabels overlapState (by decide)).2.1,
    (single_flight overlapLabels overlapState (by decide)).2.2.1⟩

/-- Witness for C10: the interrupt arrives in the middle of a cycle. -/
theorem shutdown_waits_witness :
    run State.initial slowCycleLabels = some slowCycleState ∧
    ∃ pre, slowCycleState.log = pre ++ [Event.exit] ∧
      ∀ i, Event.job i JobEvent.acquire ∈ pre → Event.job i JobEvent.release ∈ pre :=
  ⟨by decide, ((shutdown_waits slowCycleLabels slowCycleState (by decide)).2.2.2.2 rfl).2⟩

end Watchtower
